import Mathlib

/-!
Verification of the arsim molecular-dynamics simulator.

The source (`src/physics.rs`, `src/integrator.rs`, `src/initialisation.rs`,
`src/main.rs`) works on `f32` ndarray fields.  The shallow embedding models
the scalar type as the real numbers; the `+infinity` diagonal sentinel of the
distance matrix is modelled by `WithTop ℝ`, and the reciprocal-power,
division and multiplication operations that consume the sentinel mirror the
finite `f32` results (`inf.powi(-k) = 0`, `x / inf = 0`).  Operations whose
`f32` result would be a non-finite value on inputs never claimed about
(e.g. `0⁻¹`, `inf * x` inside the virial) take the usual Lean junk values.
Process aborts (failed `assert!`, `todo!`) are modelled as a distinguished
`panic` outcome, separate from `Err` values returned to the caller.
-/

noncomputable section

namespace Arsim

open scoped BigOperators

/-- A vector field: one (x,y,z) triple per particle (ndarray `TwoDee`). -/
abbrev VF (n : ℕ) := Fin n → Fin 3 → ℝ

/-- An n × n scalar matrix (ndarray `TwoDee` used pairwise). -/
abbrev Mat (n : ℕ) := Fin n → Fin n → ℝ

/-- Distance matrix entries: a real number or the `+infinity` sentinel. -/
abbrev DMat (n : ℕ) := Fin n → Fin n → WithTop ℝ

/-- n × n × 3 pairwise displacement field (ndarray `ThreeDee`). -/
abbrev Disp (n : ℕ) := Fin n → Fin n → Fin 3 → ℝ

/-- Truncation toward zero, the rounding used by the Rust float-to-int cast
inside `%` on floats. -/
def rustTrunc (t : ℝ) : ℝ := if t < 0 then (⌈t⌉ : ℝ) else (⌊t⌋ : ℝ)

/-- Rust `%` on floats: remainder with the sign of the dividend,
`x - y * trunc (x / y)`. -/
def rustRem (x y : ℝ) : ℝ := x - y * rustTrunc (x / y)

/-- The wrapping applied per coordinate difference in `atomic_distances`:
`(raw + box_dim * 0.5) % box_dim - box_dim * 0.5`. -/
def wrapCoord (box_dim r : ℝ) : ℝ := rustRem (r + box_dim * 0.5) box_dim - box_dim * 0.5

/-- `src/physics.rs::atomic_distances`: minimum-image style displacement and
distance matrices.  `dists_d[i][j] = wrap (pos[j][d] - pos[i][d])`;
`distances = sqrt (Σ_d dists_d²)` with the diagonal then filled with
`+infinity`.  The `Result` return never carries an error in the source. -/
def atomic_distances (n : ℕ) (initial_positions : VF n) (box_dim : ℝ) :
    Disp n × DMat n :=
  let rel : Disp n := fun i j d => wrapCoord box_dim (initial_positions j d - initial_positions i d)
  let distances : DMat n := fun i j =>
    if i = j then ⊤ else ((Real.sqrt (∑ d, rel i j d ^ 2) : ℝ) : WithTop ℝ)
  (rel, distances)

/-- `distances.powi(-k)` on a matrix entry: the `+infinity` sentinel gives 0. -/
def wtPowNeg (d : WithTop ℝ) (k : ℕ) : ℝ := WithTop.recTopCoe 0 (fun x => (x ^ k)⁻¹) d

/-- A displacement component divided by a distance entry: `x / inf = 0`. -/
def wtDivLeft (x : ℝ) (d : WithTop ℝ) : ℝ := WithTop.recTopCoe 0 (fun y => x / y) d

/-- A distance entry times a real (used by the virial sum). -/
def wtMulR (d : WithTop ℝ) (m : ℝ) : ℝ := WithTop.recTopCoe 0 (fun x => x * m) d

/-- `src/physics.rs::lj_force`: pairwise Lennard-Jones force magnitudes and
net force per particle.  `force_magnitude = 24 d⁻⁷ - 48 d⁻¹³`,
`force_direction[i][j][d] = rel[i][j][d] / dist[i][j]`,
`net_force[j][d] = - Σ_i direction[i][j][d] * magnitude[i][j]`
(the sum runs over axis 0). -/
def lj_force (n : ℕ) (relative_positions : Disp n) (distances : DMat n) :
    Mat n × VF n :=
  let force_magnitude : Mat n := fun i j =>
    24 * wtPowNeg (distances i j) 7 - 48 * wtPowNeg (distances i j) 13
  let force_direction : Disp n := fun i j d => wtDivLeft (relative_positions i j d) (distances i j)
  let net_force : VF n := fun j d => -∑ i, force_direction i j d * force_magnitude i j
  (force_magnitude, net_force)

/-- `src/physics.rs::kinetic_energy`: `0.5 * velocities.powi(2).sum()`. -/
def kinetic_energy (n : ℕ) (velocities : VF n) : ℝ :=
  0.5 * ∑ i, ∑ d, velocities i d ^ 2

/-- `src/physics.rs::potential_energy`:
`0.5 * (4 * (distances.powi(-12) - distances.powi(-6))).sum()`. -/
def potential_energy (n : ℕ) (distances : DMat n) : ℝ :=
  0.5 * ∑ i, ∑ j, 4 * (wtPowNeg (distances i j) 12 - wtPowNeg (distances i j) 6)

/-- `src/physics.rs::temperature`: `2 KE / (3 (N - 1))` (usize subtraction). -/
def temperature (ke : ℝ) (amount_of_particles : ℕ) : ℝ :=
  2 * ke / (3 * ((amount_of_particles - 1 : ℕ) : ℝ))

/-- Result bundle of one integration step (`IntegrationStepResult`). -/
structure IntegrationStepResult (n : ℕ) where
  positions : VF n
  velocities : VF n
  forces : VF n
  force_magnitudes : Mat n
  distances : DMat n

/-- `impl Integrator for Verlet::integration_step`.  The `?` on
`atomic_distances` never propagates an error in the source, so the step is
total. -/
def Verlet.integration_step (n : ℕ) (positions velocities forces : VF n)
    (time_step_size box_dim : ℝ) : IntegrationStepResult n :=
  let new_positions : VF n := fun i d =>
    positions i d + velocities i d * time_step_size
      + forces i d * time_step_size * time_step_size * 0.5
  let ad := atomic_distances n new_positions box_dim
  let lj := lj_force n ad.1 ad.2
  let new_velocities : VF n := fun i d =>
    velocities i d + (forces i d + lj.2 i d) * time_step_size * 0.5
  { positions := new_positions
    velocities := new_velocities
    forces := lj.2
    force_magnitudes := lj.1
    distances := ad.2 }

/-- `impl Integrator for VerletCUDA::integration_step`: the body in the
source is identical to the `Verlet` one. -/
def VerletCUDA.integration_step (n : ℕ) (positions velocities forces : VF n)
    (time_step_size box_dim : ℝ) : IntegrationStepResult n :=
  let new_positions : VF n := fun i d =>
    positions i d + velocities i d * time_step_size
      + forces i d * time_step_size * time_step_size * 0.5
  let ad := atomic_distances n new_positions box_dim
  let lj := lj_force n ad.1 ad.2
  let new_velocities : VF n := fun i d =>
    velocities i d + (forces i d + lj.2 i d) * time_step_size * 0.5
  { positions := new_positions
    velocities := new_velocities
    forces := lj.2
    force_magnitudes := lj.1
    distances := ad.2 }

/-- Outcome of a lifecycle call (`initialisation` / `deinit`): an `Ok`
return, an `Err` propagated by `?`, or a panic that aborts the process. -/
inductive CallOutcome
  | ok
  | err (msg : String)
  | panic (msg : String)
deriving DecidableEq

/-- The `Integrator` trait: lifecycle calls plus the stepping function
(both concrete steps in the source are total). -/
structure Integrator (n : ℕ) where
  initialisation : CallOutcome
  deinit : CallOutcome
  integration_step : VF n → VF n → VF n → ℝ → ℝ → IntegrationStepResult n

/-- The `Verlet` integrator: no-op lifecycle, Verlet step. -/
def VerletImpl (n : ℕ) : Integrator n :=
  { initialisation := .ok
    deinit := .ok
    integration_step := Verlet.integration_step n }

/-- The `VerletCUDA` integrator: `initialisation` hits `todo!` and panics. -/
def VerletCUDAImpl (n : ℕ) : Integrator n :=
  { initialisation := .panic "not yet implemented: implement CUDA integrator"
    deinit := .ok
    integration_step := VerletCUDA.integration_step n }

/-- Lifecycle calls the driver makes on its integrator, in order. -/
inductive Event
  | initCall
  | stepCall
  | deinitCall
deriving DecidableEq

/-- The accumulated output of a completed run (`IntegrationResult`). -/
structure IntegrationResult (n : ℕ) where
  positionsHist : List (VF n)
  velocitiesHist : List (VF n)
  virials : List ℝ
  kineticEnergies : List ℝ
  potentialEnergies : List ℝ

/-- Outcome of `simulate`: an `Ok` result, a returned `Err`, or a panic. -/
inductive SimResult (n : ℕ)
  | ok (res : IntegrationResult n)
  | err (msg : String)
  | panic (msg : String)

/-- The stepping loop of `Integrator::simulate` (`for step in 0..timesteps`):
each iteration records the current positions and velocities, records
`kinetic_energy(&current_positions)`, the potential energy and the virial,
computes the (discarded) temperature, performs one integration step and
replaces the current state with its output. -/
def simLoop (n : ℕ) (impl : Integrator n) (time_step_size box_dim : ℝ) :
    ℕ → VF n → VF n → VF n → Mat n → DMat n → IntegrationResult n × List Event
  | 0, _, _, _, _, _ => (⟨[], [], [], [], []⟩, [])
  | steps + 1, pos, vel, forces, force_magnitudes, distances =>
    let ke := kinetic_energy n pos
    let pe := potential_energy n distances
    let vir := 0.5 * ∑ i, ∑ j, wtMulR (distances i j) (force_magnitudes i j)
    let _temp := temperature ke n
    let r := impl.integration_step pos vel forces time_step_size box_dim
    let rest := simLoop n impl time_step_size box_dim steps
      r.positions r.velocities r.forces r.force_magnitudes r.distances
    (⟨pos :: rest.1.positionsHist, vel :: rest.1.velocitiesHist,
      vir :: rest.1.virials, ke :: rest.1.kineticEnergies,
      pe :: rest.1.potentialEnergies⟩,
     Event.stepCall :: rest.2)

/-- `Integrator::simulate` (the trait-provided driver).  It asserts the
particle counts match, asserts `time_step_size < max_time`, computes
`timesteps = (max_time / time_step_size) as usize` (a saturating cast,
`Nat.floor` on reals), calls `initialisation`, computes the initial
distances and forces, and runs the stepping loop.  `deinit` is never
invoked.  The returned event list records the lifecycle calls made. -/
def Integrator.simulate (np nv : ℕ) (impl : Integrator np)
    (initial_positions : VF np) (initial_velocities : VF nv)
    (time_step_size max_time box_dim : ℝ) : SimResult np × List Event :=
  if h : np = nv then
    if time_step_size < max_time then
      let timesteps : ℕ := ⌊max_time / time_step_size⌋₊
      match impl.initialisation with
      | .err m => (.err m, [Event.initCall])
      | .panic m => (.panic m, [Event.initCall])
      | .ok =>
        let vel0 : VF np := fun i d => initial_velocities (Fin.cast h i) d
        let ad := atomic_distances np initial_positions box_dim
        let lj := lj_force np ad.1 ad.2
        let r := simLoop np impl time_step_size box_dim timesteps
          initial_positions vel0 lj.2 lj.1 ad.2
        (.ok r.1, Event.initCall :: r.2)
    else (.panic "time step size larger then max time", [])
  else (.panic "positions and velocities contain a different amount of particles", [])

/-- `src/initialisation.rs`: `layers = ((n as Float) / 4.0).powf(1.0/3.0).round() as usize`
(round half away from zero on a nonnegative value, then a saturating cast). -/
def layersOf (amount_of_particles : ℕ) : ℕ :=
  ⌊((amount_of_particles : ℝ) / 4) ^ ((1 : ℝ) / 3) + 1 / 2⌋₊

/-- The even-parity lattice points gathered by the triple loop of
`initial_positions`: all `(x,y,z)` in `[0, 2·layers)³ ` with `x+y+z` even. -/
def fccPoints (layers : ℕ) : List (ℕ × ℕ × ℕ) :=
  (List.range (2 * layers)).flatMap fun x =>
    (List.range (2 * layers)).flatMap fun y =>
      ((List.range (2 * layers)).filter fun z => (x + y + z) % 2 == 0).map
        fun z => (x, y, z)

/-- Outcome of `initial_positions`: the positions, a returned `Err` (the
`?` on `Array::from_shape_vec`), or the `assert_eq!` panic. -/
inductive InitOutcome
  | ok (positions : List (Fin 3 → ℝ))
  | err (msg : String)
  | panic (msg : String)

/-- `src/initialisation.rs::initial_positions`: asserts
`layers³ · 4 = amount_of_particles` (a panic on failure), builds the
even-parity lattice points, reshapes them (an `Err` on a count mismatch),
and scales by `lattice_constant / 2` before adding `corner_offset`. -/
def initial_positions (amount_of_particles : ℕ) (box_size : ℝ) : InitOutcome :=
  let layers := layersOf amount_of_particles
  if layers ^ 3 * 4 = amount_of_particles then
    let pts := fccPoints layers
    if pts.length = amount_of_particles then
      let lattice_constant := box_size / (layers : ℝ)
      let corner_offset := lattice_constant / 4
      .ok (pts.map fun p => fun d =>
        (if d = 0 then (p.1 : ℝ) else if d = 1 then (p.2.1 : ℝ) else (p.2.2 : ℝ))
          * (lattice_constant / 2) + corner_offset)
    else .err "shape mismatch"
  else .panic "assertion failed: layers.pow(3) * 4 == amount_of_particles"

/-- `src/main.rs` configuration constants. -/
def NUMBER_OF_PARTICLES : ℕ := 500

def BOX_SIZE : ℝ := 8

def TIME_STEP : ℝ := 0.005

def TOTAL_TIME : ℝ := 10

/-- A concrete (x,y,z) triple. -/
def vecC (a b c : ℝ) : Fin 3 → ℝ := fun d => if d = 0 then a else if d = 1 then b else c

/-- Two particles 4 apart along x, inside a box of side 5. -/
def posHalfBox : VF 2 := fun i => if i = 0 then vecC 4 0 0 else vecC 0 0 0

/-- Two distinct particles exactly one box length apart along x. -/
def posBoxApart : VF 2 := fun i => if i = 0 then vecC 0 0 0 else vecC 5 0 0

/-- The positions of the regression test in `src/physics.rs`. -/
def posReg : VF 2 := fun i => if i = 0 then vecC 1 2 3 else vecC 0 2 2

/-- A single particle at (3,0,0). -/
def posSingle : VF 1 := fun _ => vecC 3 0 0

/-- A single particle at rest. -/
def velSingle : VF 1 := fun _ => vecC 0 0 0

/-- Two particles at rest. -/
def velTwo : VF 2 := fun _ => vecC 0 0 0

/-! ### Helper lemmas -/

theorem wrapCoord_eq_self (box_dim r : ℝ) (hb : 0 < box_dim)
    (hr : |r| < box_dim * 0.5) : wrapCoord box_dim r = r := by
  obtain ⟨h1, h2⟩ := abs_lt.mp hr
  have hs : 0 < r + box_dim * 0.5 := by linarith
  have hs2 : r + box_dim * 0.5 < box_dim := by linarith
  have ht0 : 0 ≤ (r + box_dim * 0.5) / box_dim := le_of_lt (div_pos hs hb)
  have ht1 : (r + box_dim * 0.5) / box_dim < 1 := (div_lt_one hb).mpr hs2
  unfold wrapCoord rustRem rustTrunc
  rw [if_neg (not_lt.mpr ht0), Int.floor_eq_zero_iff.mpr (Set.mem_Ico.mpr ⟨ht0, ht1⟩)]
  push_cast
  ring

theorem wrapCoord_five_neg_four : wrapCoord 5 (-4) = -4 := by
  norm_num [wrapCoord, rustRem, rustTrunc, Int.ceil_neg]

theorem wrapCoord_five_four : wrapCoord 5 4 = -1 := by
  norm_num [wrapCoord, rustRem, rustTrunc]

theorem wrapCoord_five_zero : wrapCoord 5 0 = 0 := by
  norm_num [wrapCoord, rustRem, rustTrunc]

theorem wrapCoord_five_five : wrapCoord 5 5 = 0 := by
  norm_num [wrapCoord, rustRem, rustTrunc]

theorem wrapCoord_five_neg_five : wrapCoord 5 (-5) = -5 := by
  norm_num [wrapCoord, rustRem, rustTrunc, Int.ceil_neg]

theorem simLoop_spec (n : ℕ) (impl : Integrator n) (dt box : ℝ) :
    ∀ (steps : ℕ) (pos vel forces : VF n) (mags : Mat n) (dists : DMat n),
      (simLoop n impl dt box steps pos vel forces mags dists).1.positionsHist.length = steps ∧
      (simLoop n impl dt box steps pos vel forces mags dists).1.velocitiesHist.length = steps ∧
      (simLoop n impl dt box steps pos vel forces mags dists).1.virials.length = steps ∧
      (simLoop n impl dt box steps pos vel forces mags dists).1.kineticEnergies.length = steps ∧
      (simLoop n impl dt box steps pos vel forces mags dists).1.potentialEnergies.length = steps ∧
      (simLoop n impl dt box steps pos vel forces mags dists).2 = List.replicate steps Event.stepCall := by
  intro steps
  induction steps with
  | zero =>
    intro pos vel forces mags dists
    simp [simLoop]
  | succ k ih =>
    intro pos vel forces mags dists
    obtain ⟨h1, h2, h3, h4, h5, h6⟩ :=
      ih (impl.integration_step pos vel forces dt box).positions
        (impl.integration_step pos vel forces dt box).velocities
        (impl.integration_step pos vel forces dt box).forces
        (impl.integration_step pos vel forces dt box).force_magnitudes
        (impl.integration_step pos vel forces dt box).distances
    simp [simLoop, h1, h2, h3, h4, h5, h6, List.replicate_succ]

theorem length_filter_even (L a : ℕ) :
    ((List.range (2 * L)).filter fun z => (a + z) % 2 == 0).length = L := by
  induction L with
  | zero => simp
  | succ L ih =>
    have h : 2 * (L + 1) = 2 * L + 1 + 1 := by ring
    rw [h, List.range_succ, List.range_succ, List.filter_append, List.filter_append,
        List.length_append, List.length_append, ih]
    by_cases hp : (a + 2 * L) % 2 = 0
    · have hp2 : (a + (2 * L + 1)) % 2 = 1 := by omega
      simp [List.filter_cons, hp, hp2]
    · have hp1 : (a + 2 * L) % 2 = 1 := by omega
      have hp2 : (a + (2 * L + 1)) % 2 = 0 := by omega
      simp [List.filter_cons, hp1, hp2]

theorem fccPoints_length (L : ℕ) : (fccPoints L).length = 4 * L ^ 3 := by
  unfold fccPoints
  rw [List.length_flatMap]
  have hinner : ∀ x ∈ List.range (2 * L),
      (((List.range (2 * L)).flatMap fun y =>
        (((List.range (2 * L)).filter fun z => (x + y + z) % 2 == 0).map
          fun z => (x, y, z))).length) = 2 * L * L := by
    intro x _
    rw [List.length_flatMap]
    simp only [Function.comp_def]
    have hy : ∀ y ∈ List.range (2 * L),
        ((((List.range (2 * L)).filter fun z => (x + y + z) % 2 == 0).map
          fun z => (x, y, z)).length) = L := by
      intro y _
      rw [List.length_map, length_filter_even L (x + y)]
    rw [List.map_congr_left hy, List.map_const', List.sum_replicate, List.length_range,
        smul_eq_mul]
  simp only [Function.comp_def]
  rw [List.map_congr_left hinner, List.map_const', List.sum_replicate, List.length_range,
      smul_eq_mul]
  ring

theorem layersOf_mul_cube (k : ℕ) : layersOf (4 * k ^ 3) = k := by
  unfold layersOf
  have h4 : ((4 * k ^ 3 : ℕ) : ℝ) / 4 = ((k : ℝ)) ^ (3 : ℕ) := by push_cast; ring
  rw [h4, ← Real.rpow_natCast (k : ℝ) 3, ← Real.rpow_mul (Nat.cast_nonneg k)]
  norm_num
  rw [Nat.floor_eq_iff (by positivity)]
  refine ⟨by linarith, by linarith⟩

theorem natFloor_cast_eq_intFloor {x : ℝ} (hx : 0 ≤ x) : ((⌊x⌋₊ : ℤ)) = ⌊x⌋ := by
  rw [← Int.floor_toNat, Int.toNat_of_nonneg (Int.floor_nonneg.mpr hx)]

theorem atomic_distances_rel (n : ℕ) (pos : VF n) (box : ℝ) (i j : Fin n) (d : Fin 3) :
    (atomic_distances n pos box).1 i j d = wrapCoord box (pos j d - pos i d) := rfl

theorem atomic_distances_dist (n : ℕ) (pos : VF n) (box : ℝ) (i j : Fin n) :
    (atomic_distances n pos box).2 i j =
      if i = j then ⊤
      else ((Real.sqrt (∑ d, wrapCoord box (pos j d - pos i d) ^ 2) : ℝ) : WithTop ℝ) := rfl

theorem simulate_shape_mismatch (np nv : ℕ) (impl : Integrator np)
    (pos : VF np) (vel : VF nv) (dt maxT box : ℝ) (h : np ≠ nv) :
    Integrator.simulate np nv impl pos vel dt maxT box =
      (.panic "positions and velocities contain a different amount of particles", []) := by
  unfold Integrator.simulate
  rw [dif_neg h]

theorem simulate_dt_panic (np nv : ℕ) (impl : Integrator np)
    (pos : VF np) (vel : VF nv) (dt maxT box : ℝ) (h : np = nv)
    (hdt : ¬dt < maxT) :
    Integrator.simulate np nv impl pos vel dt maxT box =
      (.panic "time step size larger then max time", []) := by
  subst h
  unfold Integrator.simulate
  rw [dif_pos rfl, if_neg hdt]

theorem simulate_ok (n : ℕ) (impl : Integrator n) (pos vel : VF n)
    (dt maxT box : ℝ) (hinit : impl.initialisation = .ok) (hdt : dt < maxT) :
    Integrator.simulate n n impl pos vel dt maxT box =
      (.ok (simLoop n impl dt box ⌊maxT / dt⌋₊ pos vel
        (lj_force n (atomic_distances n pos box).1 (atomic_distances n pos box).2).2
        (lj_force n (atomic_distances n pos box).1 (atomic_distances n pos box).2).1
        (atomic_distances n pos box).2).1,
       Event.initCall ::
        (simLoop n impl dt box ⌊maxT / dt⌋₊ pos vel
          (lj_force n (atomic_distances n pos box).1 (atomic_distances n pos box).2).2
          (lj_force n (atomic_distances n pos box).1 (atomic_distances n pos box).2).1
          (atomic_distances n pos box).2).2) := by
  unfold Integrator.simulate
  rw [dif_pos rfl, if_pos hdt, hinit]
  rfl

theorem simLoop_head_ke (n : ℕ) (impl : Integrator n) (dt box : ℝ) (steps : ℕ)
    (pos vel f : VF n) (m : Mat n) (dm : DMat n) :
    (simLoop n impl dt box (steps + 1) pos vel f m dm).1.kineticEnergies.head? =
      some (kinetic_energy n pos) := by
  simp [simLoop]

theorem vecC_d0 (a b c : ℝ) : vecC a b c 0 = a := rfl

theorem vecC_d1 (a b c : ℝ) : vecC a b c 1 = b := rfl

theorem vecC_d2 (a b c : ℝ) : vecC a b c 2 = c := rfl

theorem vecC_mk0 (a b c : ℝ) (h : (0 : ℕ) < 3) : vecC a b c ⟨0, h⟩ = a := rfl

theorem vecC_mk1 (a b c : ℝ) (h : (1 : ℕ) < 3) : vecC a b c ⟨1, h⟩ = b := rfl

theorem vecC_mk2 (a b c : ℝ) (h : (2 : ℕ) < 3) : vecC a b c ⟨2, h⟩ = c := rfl

theorem posHalfBox_0 : posHalfBox 0 = vecC 4 0 0 := rfl

theorem posHalfBox_1 : posHalfBox 1 = vecC 0 0 0 := rfl

theorem posBoxApart_0 : posBoxApart 0 = vecC 0 0 0 := rfl

theorem posBoxApart_1 : posBoxApart 1 = vecC 5 0 0 := rfl

theorem posReg_0 : posReg 0 = vecC 1 2 3 := rfl

theorem posReg_1 : posReg 1 = vecC 0 2 2 := rfl

theorem posSingle_app (i : Fin 1) : posSingle i = vecC 3 0 0 := rfl

theorem velSingle_app (i : Fin 1) : velSingle i = vecC 0 0 0 := rfl

theorem velTwo_app (i : Fin 2) : velTwo i = vecC 0 0 0 := rfl

/-! ### Claim theorems -/

/-- C3: the Verlet `integration_step` returns
`new_positions = positions + velocities·dt + 0.5·forces·dt²`, distances
recomputed at the new positions via the periodic-distance function, force
magnitudes and net forces recomputed from those via the Lennard-Jones force
function, and `new_velocities = velocities + 0.5·(forces + new_forces)·dt`. -/
theorem verlet_integration_step_spec (n : ℕ) (pos vel forces : VF n) (dt box : ℝ) :
    (Verlet.integration_step n pos vel forces dt box).positions =
      (fun i d => pos i d + vel i d * dt + 0.5 * forces i d * dt ^ 2) ∧
    (Verlet.integration_step n pos vel forces dt box).distances =
      (atomic_distances n
        (fun i d => pos i d + vel i d * dt + 0.5 * forces i d * dt ^ 2) box).2 ∧
    (Verlet.integration_step n pos vel forces dt box).force_magnitudes =
      (lj_force n
        (atomic_distances n
          (fun i d => pos i d + vel i d * dt + 0.5 * forces i d * dt ^ 2) box).1
        (atomic_distances n
          (fun i d => pos i d + vel i d * dt + 0.5 * forces i d * dt ^ 2) box).2).1 ∧
    (Verlet.integration_step n pos vel forces dt box).forces =
      (lj_force n
        (atomic_distances n
          (fun i d => pos i d + vel i d * dt + 0.5 * forces i d * dt ^ 2) box).1
        (atomic_distances n
          (fun i d => pos i d + vel i d * dt + 0.5 * forces i d * dt ^ 2) box).2).2 ∧
    (Verlet.integration_step n pos vel forces dt box).velocities =
      (fun i d => vel i d + 0.5 * (forces i d +
        (lj_force n
          (atomic_distances n
            (fun i d => pos i d + vel i d * dt + 0.5 * forces i d * dt ^ 2) box).1
          (atomic_distances n
            (fun i d => pos i d + vel i d * dt + 0.5 * forces i d * dt ^ 2) box).2).2 i d) * dt) := by
  have hnp : (fun i d => pos i d + vel i d * dt + forces i d * dt * dt * 0.5) =
      (fun i d => pos i d + vel i d * dt + 0.5 * forces i d * dt ^ 2) := by
    funext i d
    ring
  simp only [Verlet.integration_step]
  rw [hnp]
  refine ⟨rfl, rfl, rfl, rfl, ?_⟩
  funext i d
  ring

/-- C10: the `VerletCUDA` integration step is extensionally equal to the
reference `Verlet` integration step on every input. -/
theorem cuda_step_eq_verlet_step (n : ℕ) (pos vel forces : VF n) (dt box : ℝ) :
    VerletCUDA.integration_step n pos vel forces dt box =
      Verlet.integration_step n pos vel forces dt box := rfl

/-- C7 counterexample: 500 = 4·5³ is of the required form, so
`initial_positions` at particle count 500 succeeds instead of failing. -/
theorem initial_positions_500_succeeds :
    (∃ p, initial_positions 500 8 = InitOutcome.ok p) ∧ 500 = 4 * 5 ^ 3 := by
  refine ⟨?_, by norm_num⟩
  have hl : layersOf 500 = 5 := by
    have h : (500 : ℕ) = 4 * 5 ^ 3 := by norm_num
    rw [h, layersOf_mul_cube]
  simp only [initial_positions, hl]
  rw [if_pos (by norm_num : (5 : ℕ) ^ 3 * 4 = 500),
      if_pos (show (fccPoints 5).length = 500 by rw [fccPoints_length]; norm_num)]
  exact ⟨_, rfl⟩

/-- C7 amended: `initial_positions` succeeds exactly when the particle count
is 4·k³ (for other counts it aborts via the `assert_eq!` panic rather than
returning a ConfigurationError); 500 = 4·5³ is of this form and succeeds. -/
theorem initial_positions_ok_iff (n : ℕ) (box : ℝ) :
    (∃ p, initial_positions n box = InitOutcome.ok p) ↔ ∃ k, n = 4 * k ^ 3 := by
  constructor
  · rintro ⟨p, hp⟩
    simp only [initial_positions] at hp
    by_cases h1 : layersOf n ^ 3 * 4 = n
    · exact ⟨layersOf n, by omega⟩
    · rw [if_neg h1] at hp
      simp at hp
  · rintro ⟨k, rfl⟩
    simp only [initial_positions, layersOf_mul_cube]
    rw [if_pos (by ring : k ^ 3 * 4 = 4 * k ^ 3),
        if_pos (fccPoints_length k)]
    exact ⟨_, rfl⟩

/-- C4 counterexample: with particles at x = 4 and x = 0 inside a box of
side 5, the returned displacement is not antisymmetric: entry (0,1,x) is −4
while entry (1,0,x) is −1 (the truncated remainder does not wrap a raw
difference below −box/2). -/
theorem displacement_not_antisymmetric :
    (atomic_distances 2 posHalfBox 5).1 0 1 0 = -4 ∧
    (atomic_distances 2 posHalfBox 5).1 1 0 0 = -1 ∧
    (atomic_distances 2 posHalfBox 5).1 0 1 0 ≠
      -((atomic_distances 2 posHalfBox 5).1 1 0 0) := by
  have h01 : (atomic_distances 2 posHalfBox 5).1 0 1 0 = -4 := by
    rw [atomic_distances_rel,
        show posHalfBox 1 0 - posHalfBox 0 0 = -4 by
          norm_num [posHalfBox_0, posHalfBox_1, vecC_d0]]
    exact wrapCoord_five_neg_four
  have h10 : (atomic_distances 2 posHalfBox 5).1 1 0 0 = -1 := by
    rw [atomic_distances_rel,
        show posHalfBox 0 0 - posHalfBox 1 0 = 4 by
          norm_num [posHalfBox_0, posHalfBox_1, vecC_d0]]
    exact wrapCoord_five_four
  refine ⟨h01, h10, ?_⟩
  rw [h01, h10]
  norm_num

/-- C4 amended: the displacement field is antisymmetric on every particle
pair whose raw coordinate differences all lie strictly within half a box
length (the truncated remainder breaks antisymmetry beyond that). -/
theorem displacement_antisymmetric (n : ℕ) (pos : VF n) (box : ℝ)
    (hb : 0 < box) (i j : Fin n)
    (hd : ∀ d, |pos j d - pos i d| < box * 0.5) :
    ∀ d, (atomic_distances n pos box).1 i j d =
      -((atomic_distances n pos box).1 j i d) := by
  intro d
  rw [atomic_distances_rel, atomic_distances_rel,
      wrapCoord_eq_self box _ hb (hd d),
      wrapCoord_eq_self box _ hb (by rw [abs_sub_comm]; exact hd d)]
  ring

theorem displacement_antisymmetric_witness :
    (0 : ℝ) < 5 ∧
    (atomic_distances 2 posReg 5).1 0 1 0 = -((atomic_distances 2 posReg 5).1 1 0 0) := by
  refine ⟨by norm_num, displacement_antisymmetric 2 posReg 5 (by norm_num) 0 1 ?_ 0⟩
  intro d
  fin_cases d <;>
    norm_num [posReg_0, posReg_1, vecC_d0, vecC_d1, vecC_d2, vecC_mk0, vecC_mk1, vecC_mk2]

/-- C5 counterexample: two distinct particles exactly one box length apart
give distance entry (0,1) equal to 0 and entry (1,0) equal to 5: strict
positivity and off-diagonal symmetry of the distance matrix both fail. -/
theorem distance_matrix_ce :
    (atomic_distances 2 posBoxApart 5).2 0 1 = ((0 : ℝ) : WithTop ℝ) ∧
    (atomic_distances 2 posBoxApart 5).2 1 0 = ((5 : ℝ) : WithTop ℝ) ∧
    posBoxApart 0 0 ≠ posBoxApart 1 0 ∧
    (atomic_distances 2 posBoxApart 5).2 0 1 ≠ (atomic_distances 2 posBoxApart 5).2 1 0 ∧
    ¬((0 : WithTop ℝ) < (atomic_distances 2 posBoxApart 5).2 0 1) := by
  have e0 : posBoxApart 1 0 - posBoxApart 0 0 = 5 := by
    norm_num [posBoxApart_0, posBoxApart_1, vecC_d0]
  have e1 : posBoxApart 1 1 - posBoxApart 0 1 = 0 := by
    norm_num [posBoxApart_0, posBoxApart_1, vecC_d1]
  have e2 : posBoxApart 1 2 - posBoxApart 0 2 = 0 := by
    norm_num [posBoxApart_0, posBoxApart_1, vecC_d2]
  have f0 : posBoxApart 0 0 - posBoxApart 1 0 = -5 := by
    norm_num [posBoxApart_0, posBoxApart_1, vecC_d0]
  have f1 : posBoxApart 0 1 - posBoxApart 1 1 = 0 := by
    norm_num [posBoxApart_0, posBoxApart_1, vecC_d1]
  have f2 : posBoxApart 0 2 - posBoxApart 1 2 = 0 := by
    norm_num [posBoxApart_0, posBoxApart_1, vecC_d2]
  have h01 : (atomic_distances 2 posBoxApart 5).2 0 1 = ((0 : ℝ) : WithTop ℝ) := by
    rw [atomic_distances_dist, if_neg (by decide : ¬(0 : Fin 2) = 1), Fin.sum_univ_three,
        e0, e1, e2, wrapCoord_five_five, wrapCoord_five_zero]
    norm_num
  have h10 : (atomic_distances 2 posBoxApart 5).2 1 0 = ((5 : ℝ) : WithTop ℝ) := by
    rw [atomic_distances_dist, if_neg (by decide : ¬(1 : Fin 2) = 0), Fin.sum_univ_three,
        f0, f1, f2, wrapCoord_five_neg_five, wrapCoord_five_zero]
    rw [show (-5 : ℝ) ^ 2 + 0 ^ 2 + 0 ^ 2 = 5 ^ 2 by norm_num,
        Real.sqrt_sq (by norm_num : (0 : ℝ) ≤ 5)]
  refine ⟨h01, h10, ?_, ?_, ?_⟩
  · norm_num [posBoxApart_0, posBoxApart_1, vecC_d0]
  · rw [h01, h10]
    exact_mod_cast (by norm_num : (0 : ℝ) ≠ 5)
  · rw [h01]
    intro hlt
    exact lt_irrefl (0 : ℝ) (by exact_mod_cast hlt)

/-- C5 amended: the distance matrix always carries the +infinity sentinel on
the diagonal; off-diagonal symmetry, and strict positivity at distinct
positions, hold for pairs whose raw coordinate differences all lie strictly
within half a box length. -/
theorem distance_matrix_props (n : ℕ) (pos : VF n) (box : ℝ) (hb : 0 < box) :
    (∀ i : Fin n, (atomic_distances n pos box).2 i i = ⊤) ∧
    (∀ i j : Fin n, (∀ d, |pos j d - pos i d| < box * 0.5) →
      (atomic_distances n pos box).2 i j = (atomic_distances n pos box).2 j i ∧
      (pos i ≠ pos j → (0 : WithTop ℝ) < (atomic_distances n pos box).2 i j)) := by
  constructor
  · intro i
    rw [atomic_distances_dist, if_pos rfl]
  · intro i j hd
    by_cases hij : i = j
    · subst hij
      exact ⟨rfl, fun hne => absurd rfl hne⟩
    · have hwrap : ∀ d, wrapCoord box (pos j d - pos i d) = pos j d - pos i d :=
        fun d => wrapCoord_eq_self box _ hb (hd d)
      have hwrap' : ∀ d, wrapCoord box (pos i d - pos j d) = pos i d - pos j d :=
        fun d => wrapCoord_eq_self box _ hb (by rw [abs_sub_comm]; exact hd d)
      constructor
      · rw [atomic_distances_dist, atomic_distances_dist, if_neg hij, if_neg (Ne.symm hij)]
        have hsum : (∑ d, wrapCoord box (pos j d - pos i d) ^ 2) =
            ∑ d, wrapCoord box (pos i d - pos j d) ^ 2 := by
          apply Finset.sum_congr rfl
          intro d _
          rw [hwrap d, hwrap' d]
          ring
        rw [hsum]
      · intro hne
        rw [atomic_distances_dist, if_neg hij]
        have hpos : 0 < Real.sqrt (∑ d, wrapCoord box (pos j d - pos i d) ^ 2) := by
          apply Real.sqrt_pos.mpr
          obtain ⟨d, hdne⟩ := Function.ne_iff.mp hne
          apply Finset.sum_pos' (fun e _ => sq_nonneg _)
          refine ⟨d, Finset.mem_univ d, ?_⟩
          rw [hwrap d]
          have hsub : pos j d - pos i d ≠ 0 := sub_ne_zero.mpr (Ne.symm hdne)
          exact lt_of_le_of_ne (sq_nonneg _) (Ne.symm (pow_ne_zero 2 hsub))
        exact_mod_cast hpos

theorem distance_matrix_props_witness :
    (atomic_distances 2 posReg 5).2 0 0 = ⊤ ∧
    (atomic_distances 2 posReg 5).2 0 1 = (atomic_distances 2 posReg 5).2 1 0 ∧
    (0 : WithTop ℝ) < (atomic_distances 2 posReg 5).2 0 1 := by
  obtain ⟨hdiag, hoff⟩ := distance_matrix_props 2 posReg 5 (by norm_num)
  obtain ⟨hsym, hpos⟩ := hoff 0 1 (by
    intro d
    fin_cases d <;> norm_num [posReg_0, posReg_1, vecC_d0, vecC_d1, vecC_d2, vecC_mk0, vecC_mk1, vecC_mk2])
  refine ⟨hdiag 0, hsym, hpos ?_⟩
  intro h
  have h0 := congrFun h 0
  rw [posReg_0, posReg_1, vecC_d0, vecC_d0] at h0
  norm_num at h0

/-- C1: the driver records `kinetic_energy(&current_positions)` — in a run
from a particle at (3,0,0) with zero velocity the first recorded
kinetic-energy entry is 9/2 = 0.5·Σ positions², while 0.5 times the sum of
the squares of the current velocity components is 0. -/
theorem kinetic_energy_recorded_from_positions :
    (∃ out, (Integrator.simulate 1 1 (VerletImpl 1) posSingle velSingle 1 2 5).1 =
        SimResult.ok out ∧
      out.kineticEnergies.head? = some (9 / 2)) ∧
    kinetic_energy 1 posSingle = 9 / 2 ∧
    kinetic_energy 1 velSingle = 0 := by
  have hs := simulate_ok 1 (VerletImpl 1) posSingle velSingle 1 2 5 rfl (by norm_num)
  have hfl : ⌊(2 : ℝ) / 1⌋₊ = 2 := by norm_num
  rw [hfl] at hs
  have hke : kinetic_energy 1 posSingle = 9 / 2 := by
    unfold kinetic_energy
    rw [Fin.sum_univ_one, Fin.sum_univ_three]
    norm_num [posSingle_app, vecC_d0, vecC_d1, vecC_d2]
  have hkv : kinetic_energy 1 velSingle = 0 := by
    unfold kinetic_energy
    rw [Fin.sum_univ_one, Fin.sum_univ_three]
    norm_num [velSingle_app, vecC_d0, vecC_d1, vecC_d2]
  refine ⟨⟨_, by rw [hs], ?_⟩, hke, hkv⟩
  exact (simLoop_head_ke 1 (VerletImpl 1) 1 5 1 posSingle velSingle _ _ _).trans
    (by rw [hke])

/-- C2 counterexample: with `time_step_size = max_time = 10` the driver
aborts on the assert (a panic; no ConfigurationError value is returned to
the caller), and with mismatched particle counts it panics likewise — in
both cases before any lifecycle or integration-step call. -/
theorem simulate_precondition_ce :
    Integrator.simulate 1 1 (VerletImpl 1) posSingle velSingle 10 10 5 =
      (SimResult.panic "time step size larger then max time", []) ∧
    Integrator.simulate 1 2 (VerletImpl 1) posSingle velTwo 10 40 5 =
      (SimResult.panic "positions and velocities contain a different amount of particles", []) := by
  constructor
  · exact simulate_dt_panic 1 1 (VerletImpl 1) posSingle velSingle 10 10 5 rfl (by norm_num)
  · exact simulate_shape_mismatch 1 2 (VerletImpl 1) posSingle velTwo 10 40 5 (by norm_num)

/-- C2 amended: when the particle counts differ, or when
`time_step_size ≥ max_time`, `simulate` aborts with an assertion panic —
it does not return a ConfigurationError — and does so before any lifecycle
call or integration step (the recorded call list is empty). -/
theorem simulate_precondition_panics (np nv : ℕ) (impl : Integrator np)
    (pos : VF np) (vel : VF nv) (dt maxT box : ℝ) :
    (np ≠ nv →
      Integrator.simulate np nv impl pos vel dt maxT box =
        (SimResult.panic "positions and velocities contain a different amount of particles", [])) ∧
    (np = nv → maxT ≤ dt →
      Integrator.simulate np nv impl pos vel dt maxT box =
        (SimResult.panic "time step size larger then max time", [])) :=
  ⟨simulate_shape_mismatch np nv impl pos vel dt maxT box,
   fun h hle => simulate_dt_panic np nv impl pos vel dt maxT box h (not_lt.mpr hle)⟩

theorem simulate_precondition_panics_witness :
    Integrator.simulate 2 1 (VerletImpl 2) posHalfBox velSingle 1 10 5 =
      (SimResult.panic "positions and velocities contain a different amount of particles", []) ∧
    Integrator.simulate 1 1 (VerletImpl 1) posSingle velSingle 20 20 5 =
      (SimResult.panic "time step size larger then max time", []) :=
  ⟨(simulate_precondition_panics 2 1 (VerletImpl 2) posHalfBox velSingle 1 10 5).1
      (by norm_num),
   (simulate_precondition_panics 1 1 (VerletImpl 1) posSingle velSingle 20 20 5).2
      rfl (by norm_num)⟩

/-- C6 counterexample: a completed two-step run records the lifecycle calls
[initialise, step, step] — `deinit` is never called, so the integrator does
not reach the Finalised state before `simulate` returns its result. -/
theorem simulate_no_deinit_ce :
    (∃ out, (Integrator.simulate 1 1 (VerletImpl 1) posSingle velSingle 1 2 5).1 =
      SimResult.ok out) ∧
    (Integrator.simulate 1 1 (VerletImpl 1) posSingle velSingle 1 2 5).2 =
      [Event.initCall, Event.stepCall, Event.stepCall] ∧
    Event.deinitCall ∉ (Integrator.simulate 1 1 (VerletImpl 1) posSingle velSingle 1 2 5).2 := by
  have hs := simulate_ok 1 (VerletImpl 1) posSingle velSingle 1 2 5 rfl (by norm_num)
  have hfl : ⌊(2 : ℝ) / 1⌋₊ = 2 := by norm_num
  rw [hfl] at hs
  have hev : ∀ (p v f : VF 1) (m : Mat 1) (dm : DMat 1),
      (simLoop 1 (VerletImpl 1) 1 5 2 p v f m dm).2 = List.replicate 2 Event.stepCall :=
    fun p v f m dm => (simLoop_spec 1 (VerletImpl 1) 1 5 2 p v f m dm).2.2.2.2.2
  refine ⟨⟨_, by rw [hs]⟩, ?_, ?_⟩
  · rw [hs]
    simp [hev, List.replicate]
  · rw [hs]
    simp [hev, List.replicate]

/-- C6 amended: `simulate` never calls `deinit`: a run that passes the
asserts makes exactly one `initialisation` call followed by one
`integration_step` call per timestep, so the integrator is left in the
Ready state, not the Finalised state, when the result is returned. -/
theorem simulate_never_deinits (n : ℕ) (impl : Integrator n) (pos vel : VF n)
    (dt maxT box : ℝ) (hinit : impl.initialisation = .ok) (hdt : dt < maxT) :
    (Integrator.simulate n n impl pos vel dt maxT box).2 =
      Event.initCall :: List.replicate ⌊maxT / dt⌋₊ Event.stepCall ∧
    Event.deinitCall ∉ (Integrator.simulate n n impl pos vel dt maxT box).2 := by
  have hs := simulate_ok n impl pos vel dt maxT box hinit hdt
  have hev := (simLoop_spec n impl dt box ⌊maxT / dt⌋₊ pos vel
    (lj_force n (atomic_distances n pos box).1 (atomic_distances n pos box).2).2
    (lj_force n (atomic_distances n pos box).1 (atomic_distances n pos box).2).1
    (atomic_distances n pos box).2).2.2.2.2.2
  constructor
  · rw [hs]
    simp [hev]
  · rw [hs]
    simp [hev, List.mem_replicate]

theorem simulate_never_deinits_witness :
    (Integrator.simulate 1 1 (VerletImpl 1) posSingle velSingle 1 4 5).2 =
      Event.initCall :: List.replicate ⌊(4 : ℝ) / 1⌋₊ Event.stepCall ∧
    Event.deinitCall ∉ (Integrator.simulate 1 1 (VerletImpl 1) posSingle velSingle 1 4 5).2 :=
  simulate_never_deinits 1 (VerletImpl 1) posSingle velSingle 1 4 5 rfl (by norm_num)

/-- C8 counterexample: `time_step_size = -1 < max_time = 10` passes the
asserts; the run succeeds with zero recorded timesteps, yet
`floor(max_time / time_step_size) = -10 ≠ 0`: the claimed count is wrong
because the float-to-usize cast saturates at zero for a negative quotient. -/
theorem simulate_lengths_ce :
    (Integrator.simulate 1 1 (VerletImpl 1) posSingle velSingle (-1) 10 5).1 =
      SimResult.ok ⟨[], [], [], [], []⟩ ∧
    (⌊(10 : ℝ) / (-1)⌋ : ℤ) = -10 ∧ ((-10 : ℤ) ≠ 0) := by
  have hs := simulate_ok 1 (VerletImpl 1) posSingle velSingle (-1) 10 5 rfl (by norm_num)
  have hfl : ⌊(10 : ℝ) / (-1)⌋₊ = 0 := by norm_num
  rw [hfl] at hs
  refine ⟨?_, by norm_num, by norm_num⟩
  rw [hs]
  rfl

/-- C8 amended: for every successful run with `0 < dt < max_time` the
recorded timestep count is `floor(max_time / dt)` (for a negative `dt` the
saturating cast records zero steps instead of the negative floor), and the
position history, velocity history and the three returned scalar series all
have exactly that length, one entry per step. -/
theorem simulate_lengths (n : ℕ) (impl : Integrator n) (pos vel : VF n)
    (dt maxT box : ℝ) (hinit : impl.initialisation = .ok)
    (hdt0 : 0 < dt) (hdt : dt < maxT) :
    ∃ out, (Integrator.simulate n n impl pos vel dt maxT box).1 = SimResult.ok out ∧
      out.positionsHist.length = ⌊maxT / dt⌋₊ ∧
      out.velocitiesHist.length = ⌊maxT / dt⌋₊ ∧
      out.virials.length = ⌊maxT / dt⌋₊ ∧
      out.kineticEnergies.length = ⌊maxT / dt⌋₊ ∧
      out.potentialEnergies.length = ⌊maxT / dt⌋₊ ∧
      ((⌊maxT / dt⌋₊ : ℤ) = ⌊maxT / dt⌋) := by
  have hs := simulate_ok n impl pos vel dt maxT box hinit hdt
  obtain ⟨h1, h2, h3, h4, h5, -⟩ := simLoop_spec n impl dt box ⌊maxT / dt⌋₊ pos vel
    (lj_force n (atomic_distances n pos box).1 (atomic_distances n pos box).2).2
    (lj_force n (atomic_distances n pos box).1 (atomic_distances n pos box).2).1
    (atomic_distances n pos box).2
  refine ⟨_, by rw [hs], h1, h2, h3, h4, h5,
    natFloor_cast_eq_intFloor (div_nonneg ?_ (le_of_lt hdt0))⟩
  exact le_of_lt (lt_trans hdt0 hdt)

theorem simulate_lengths_witness :
    ∃ out, (Integrator.simulate 1 1 (VerletImpl 1) posSingle velSingle 1 2 5).1 =
        SimResult.ok out ∧
      out.positionsHist.length = ⌊(2 : ℝ) / 1⌋₊ ∧
      out.velocitiesHist.length = ⌊(2 : ℝ) / 1⌋₊ ∧
      out.virials.length = ⌊(2 : ℝ) / 1⌋₊ ∧
      out.kineticEnergies.length = ⌊(2 : ℝ) / 1⌋₊ ∧
      out.potentialEnergies.length = ⌊(2 : ℝ) / 1⌋₊ ∧
      ((⌊(2 : ℝ) / 1⌋₊ : ℤ) = ⌊(2 : ℝ) / 1⌋) :=
  simulate_lengths 1 (VerletImpl 1) posSingle velSingle 1 2 5 rfl
    (by norm_num) (by norm_num)

end Arsim

end
